import Mathlib

/-!
Shallow embedding of the quota-constrained scheduling subsystem of the
sharpedge tennis scraper (`src/runner.ts`, `src/session-scraper.ts`):
the `AccountPool` credential pool, the `ViewAllocator` priority scorer
and allocator, and the view-limit detector.  Definitions are translated
from the TypeScript source; JavaScript numbers are modelled as `Int`
(counts, timestamps) and `Rat` (odds, fractional day counts), strings as
`String`/`List Char`, and the Supabase cache lookup as an explicit
function argument.
-/

namespace SharpEdge

/-- Credentials of one scraper account (`AccountCredentials` in runner.ts). -/
structure AccountCredentials where
  id : String
  username : String
  password : String
  deriving Repr, DecidableEq

/-- In-memory per-account state (`AccountState` in runner.ts). -/
structure AccountState where
  credentials : AccountCredentials
  viewsUsedToday : Int
  maxViews : Int
  lastResetDate : String
  cookies : Option String
  deriving Repr, DecidableEq

/-- A stored row of the `tennisstats_accounts` table, as read by
`AccountPool.loadAccounts`. -/
structure AccountRow where
  id : String
  username : String
  password : String
  views_used_today : Int
  last_reset_date : String
  session_cookies : Option String
  deriving Repr, DecidableEq

/-- `VIEWS_PER_ACCOUNT` constant of `AccountPool`. -/
def VIEWS_PER_ACCOUNT : Int := 3

/-- `AccountPool.loadAccounts`: maps stored rows to in-memory state; the
stored used-count is kept only when the stored reset date is today. -/
def loadAccounts (rows : List AccountRow) (today : String) : List AccountState :=
  rows.map fun row =>
    { credentials := { id := row.id, username := row.username, password := row.password }
      viewsUsedToday := if row.last_reset_date = today then row.views_used_today else 0
      maxViews := VIEWS_PER_ACCOUNT
      lastResetDate := today
      cookies := row.session_cookies }

/-- `AccountPool.getTotalAvailableViews`: a left fold mirroring the
JavaScript `reduce` over the in-memory account list. -/
def getTotalAvailableViews (accounts : List AccountState) : Int :=
  accounts.foldl (fun sum acc => sum + (acc.maxViews - acc.viewsUsedToday)) 0

/-- `AccountPool.getNextAvailableAccount`: first account, in load order,
with views remaining. -/
def getNextAvailableAccount (accounts : List AccountState) : Option AccountState :=
  accounts.find? (fun acc => acc.viewsUsedToday < acc.maxViews)

/-- `AccountPool.consumeView`: increments `viewsUsedToday` of the first
account whose credentials id matches (no-op when the id is unknown).
The JavaScript mutates the object found by `Array.find`. -/
def consumeView : List AccountState → String → List AccountState
  | [], _ => []
  | a :: rest, accountId =>
    if a.credentials.id = accountId then
      { a with viewsUsedToday := a.viewsUsedToday + 1 } :: rest
    else
      a :: consumeView rest accountId

/-- A sequence of `consumeView` calls, applied in order. -/
def consumeSeq (accounts : List AccountState) (ids : List String) : List AccountState :=
  ids.foldl consumeView accounts

/-- The quota invariant of the spec: `0 <= quotaUsed <= quotaMax` for
every account of the pool. -/
def QuotaInvariant (accounts : List AccountState) : Prop :=
  ∀ a ∈ accounts, 0 ≤ a.viewsUsedToday ∧ a.viewsUsedToday ≤ a.maxViews

instance : DecidablePred QuotaInvariant := fun accounts =>
  List.decidableBAll _ accounts

/-- A consume sequence is guarded when every call targets an account
that still has a view remaining at the moment of the call. -/
def guardedSeq : List AccountState → List String → Bool
  | _, [] => true
  | accounts, id :: rest =>
    accounts.all (fun a => !(a.credentials.id == id) || decide (a.viewsUsedToday < a.maxViews)) &&
      guardedSeq (consumeView accounts id) rest

/-! ### Concrete example data for witnesses and counterexamples -/

/-- An example current day. -/
def dateToday : String := "2026-10-12"

/-- An example earlier day. -/
def dateOld : String := "2026-10-11"

/-- Example account id. -/
def idA : String := "acc-a"

/-- Example account id. -/
def idB : String := "acc-b"

/-- A stored row whose quota is fully used today. -/
def rowFull : AccountRow :=
  { id := idA, username := "user-a", password := "pw-a",
    views_used_today := 3, last_reset_date := dateToday, session_cookies := none }

/-- A stored row with one view used today. -/
def rowHalf : AccountRow :=
  { id := idA, username := "user-a", password := "pw-a",
    views_used_today := 1, last_reset_date := dateToday, session_cookies := none }

/-- A stored row whose reset date is stale (yesterday). -/
def rowStale : AccountRow :=
  { id := idB, username := "user-b", password := "pw-b",
    views_used_today := 2, last_reset_date := dateOld, session_cookies := none }

/-! ### Strings: JavaScript `toLowerCase` and `includes` -/

/-- Characters of a string, lowercased (JS `toLowerCase` on ASCII text). -/
def lowerChars (s : String) : List Char := s.toList.map Char.toLower

/-- `startsWith pat s`: `pat` is a leading segment of `s`. -/
def startsWith : List Char → List Char → Bool
  | [], _ => true
  | _ :: _, [] => false
  | p :: ps, c :: cs => p == c && startsWith ps cs

/-- `containsSub pat s`: `pat` occurs contiguously in `s`
(JS `String.prototype.includes`). -/
def containsSub (pat : List Char) : List Char → Bool
  | [] => startsWith pat []
  | c :: cs => startsWith pat (c :: cs) || containsSub pat cs

/-! ### Daily match data (`DailyMatch` of scraper.ts) -/

inductive Gender where
  | men
  | women
  deriving Repr, DecidableEq

inductive MatchCategory where
  | singles
  | doubles
  deriving Repr, DecidableEq

inductive Surface where
  | hard
  | clay
  | grass
  deriving Repr, DecidableEq

inductive MatchStatus where
  | upcoming
  | live
  | finished
  deriving Repr, DecidableEq

/-- One side of a daily match: `ranking` and `odds` are nullable JS
numbers, modelled as `Option`; odds and form scores are decimal numbers,
modelled as `Rat`. -/
structure PlayerEntry where
  name : String
  ranking : Option Int
  formScore : Rat
  odds : Option Rat
  deriving Repr, DecidableEq

/-- A homepage match row (`DailyMatch` in scraper.ts). -/
structure DailyMatch where
  tournament : String
  tournamentTier : Option String
  tournamentOfficialName : Option String
  country : String
  gender : Gender
  category : MatchCategory
  round : String
  surface : Surface
  player1 : PlayerEntry
  player2 : PlayerEntry
  scheduledTime : String
  status : MatchStatus
  h2hUrl : String
  score : Option String
  deriving Repr, DecidableEq

/-! ### ViewAllocator: priority scoring -/

/-- Tournament keyword tested by the tier bonus. -/
def atpKey : String := "atp"

/-- Tournament keyword tested by the tier bonus. -/
def wtaKey : String := "wta"

/-- Tournament keyword tested by the tier bonus. -/
def challKey : String := "chall"

/-- Tournament keyword tested by the tier bonus. -/
def itfKey : String := "itf"

/-- Tier term of `ViewAllocator.calculatePriority`: the tournament name is
lowercased, then matched against tour keywords. -/
def tierBonus (tournamentName : String) : Int :=
  let t := lowerChars tournamentName
  if containsSub atpKey.toList t || containsSub wtaKey.toList t then
    if !containsSub challKey.toList t then 40 else 15
  else if containsSub itfKey.toList t then 5
  else 20

/-- JS `ranking || 999`: both `null` and the number 0 are falsy, so both
fall back to 999. -/
def rankOr999 : Option Int → Int
  | none => 999
  | some r => if r = 0 then 999 else r

/-- Ranking term of `ViewAllocator.calculatePriority` as a function of the
best (smallest) effective ranking. -/
def rankingBonus (bestRanking : Int) : Int :=
  if bestRanking ≤ 10 then 30
  else if bestRanking ≤ 30 then 20
  else if bestRanking ≤ 50 then 15
  else if bestRanking ≤ 100 then 10
  else 0

/-- JS truthiness of a nullable odds value: `null` and 0 are falsy. -/
def oddsTruthy : Option Rat → Bool
  | none => false
  | some x => !(x == 0)

/-- Close-odds term of `ViewAllocator.calculatePriority`: applied only
when both odds are truthy. -/
def oddsCloseness (o1 o2 : Option Rat) : Int :=
  if oddsTruthy o1 && oddsTruthy o2 then
    let d := |o1.getD 0 - o2.getD 0|
    if d < 1/2 then 25 else if d < 1 then 15 else if d < 2 then 5 else 0
  else 0

/-- Form-vs-odds divergence term of `ViewAllocator.calculatePriority`:
applied only when both odds are truthy. -/
def formDivergence (p1 p2 : PlayerEntry) : Int :=
  if oddsTruthy p1.odds && oddsTruthy p2.odds then
    let formFavorsP1 := decide (p2.formScore < p1.formScore)
    let oddsFavorP1 := decide (p1.odds.getD 0 < p2.odds.getD 0)
    if formFavorsP1 != oddsFavorP1 then 20 else 0
  else 0

/-- `ViewAllocator.daysSince`: fractional days between two millisecond
timestamps, `(now - then) / (1000 * 60 * 60 * 24)`, as the exact rational
quotient (`daysSince_eq_div` below states it as a field division). -/
def daysSince (updatedAt now : Int) : Rat :=
  Rat.divInt (now - updatedAt) (1000 * 60 * 60 * 24)

/-- Cache-freshness term of `ViewAllocator.calculatePriority`: `cached` is
the `updated_at` timestamp of the `tennis_h2h` row for the item key, if
any; `now` is `Date.now()` at evaluation time. -/
def cacheBonus (cached : Option Int) (now : Int) : Int :=
  match cached with
  | none => 15
  | some updatedAt => if 30 < daysSince updatedAt now then 10 else -20

/-- Status term of `ViewAllocator.calculatePriority`. -/
def statusBonus : MatchStatus → Int
  | .upcoming => 10
  | .live => 0
  | .finished => -50

/-- `ViewAllocator.calculatePriority`: the sum of the six signal terms,
clamped below at 0.  The cache lookup result and the current clock are
explicit arguments (the source reads them from Supabase and `Date.now()`). -/
def calculatePriority (m : DailyMatch) (cached : Option Int) (now : Int) : Int :=
  let bestRanking := min (rankOr999 m.player1.ranking) (rankOr999 m.player2.ranking)
  max 0
    (tierBonus m.tournament + rankingBonus bestRanking +
      oddsCloseness m.player1.odds m.player2.odds +
      formDivergence m.player1 m.player2 +
      cacheBonus cached now + statusBonus m.status)

/-! ### ViewAllocator: allocation -/

/-- The `/h2h/` path marker of `ViewAllocator.extractH2HPath`. -/
def h2hMarker : String := "/h2h/"

/-- Scan for the suffix following the last occurrence of `pat`; `acc` is
the best answer so far (the whole input when no occurrence exists). -/
def afterLastAux (pat : List Char) : List Char → List Char → List Char
  | acc, [] => acc
  | acc, c :: cs =>
    if startsWith pat (c :: cs) then
      afterLastAux pat ((c :: cs).drop pat.length) cs
    else
      afterLastAux pat acc cs

/-- `ViewAllocator.extractH2HPath`, modelling the regex fallback branch:
everything up to and including the last occurrence of `/h2h/` is stripped
(the greedy leading wildcard of the regex); a URL with no `/h2h/` segment
is returned unchanged. -/
def extractH2HPath (url : String) : String :=
  String.mk (afterLastAux h2hMarker.toList url.toList url.toList)

/-- Characters kept by `nameToSlug` after lowercasing. -/
def slugAllowed (c : Char) : Bool :=
  (decide ('a' ≤ c) && decide (c ≤ 'z')) ||
    (decide ('0' ≤ c) && decide (c ≤ '9')) || c == '-'

/-- Replace each maximal whitespace run by a single dash (JS
`.replace(regex-of-whitespace-runs, dash)`); the flag records whether the
previous character was whitespace. -/
def collapseWS : Bool → List Char → List Char
  | _, [] => []
  | inRun, c :: cs =>
    if c.isWhitespace then
      if inRun then collapseWS true cs else '-' :: collapseWS true cs
    else c :: collapseWS false cs

/-- `ViewAllocator.nameToSlug`: lowercase, dash the whitespace runs, drop
every other character outside `a-z`, `0-9`, `-`. -/
def nameToSlug (name : String) : String :=
  String.mk ((collapseWS false (lowerChars name)).filter slugAllowed)

/-- Reason string of `ViewAllocator.getPriorityReason`. -/
def reasonHighValue : String := "High-value main tour match"

/-- Reason string of `ViewAllocator.getPriorityReason`. -/
def reasonTossUp : String := "Toss-up odds"

/-- Reason string of `ViewAllocator.getPriorityReason`. -/
def reasonFormOdds : String := "Form vs odds disagreement"

/-- Reason string of `ViewAllocator.getPriorityReason`. -/
def reasonStandard : String := "Standard priority"

/-- Separator of `ViewAllocator.getPriorityReason`. -/
def reasonSep : String := ", "

/-- JS `odds || 99` of `getPriorityReason`: `null` and 0 fall back to 99. -/
def oddsOr99 : Option Rat → Rat
  | none => 99
  | some x => if x = 0 then 99 else x

/-- `ViewAllocator.getPriorityReason`. -/
def getPriorityReason (m : DailyMatch) (score : Int) : String :=
  let reasons :=
    (if 80 ≤ score then [reasonHighValue] else []) ++
    (if oddsTruthy m.player1.odds && oddsTruthy m.player2.odds &&
        decide (|m.player1.odds.getD 0 - m.player2.odds.getD 0| < 1/2) then
      [reasonTossUp]
    else []) ++
    (let formFavorsP1 := decide (m.player2.formScore < m.player1.formScore)
     let oddsFavorP1 := decide (oddsOr99 m.player1.odds < oddsOr99 m.player2.odds)
     if formFavorsP1 != oddsFavorP1 then [reasonFormOdds] else [])
  let joined := String.intercalate reasonSep reasons
  if joined = "" then reasonStandard else joined

/-- One entry of the allocator result (`ViewAllocation` in runner.ts). -/
structure ViewAllocation where
  matchH2hPath : String
  player1Slug : String
  player2Slug : String
  priority : Int
  assignedAccountId : Option String
  reason : String
  deriving Repr, DecidableEq

/-- The allocation record `allocateViews` builds for one match, given the
cache lookup `cache` (keyed by h2h path) and the current clock `now`. -/
def mkAllocation (cache : String → Option Int) (now : Int) (m : DailyMatch) : ViewAllocation :=
  let priority := calculatePriority m (cache (extractH2HPath m.h2hUrl)) now
  { matchH2hPath := extractH2HPath m.h2hUrl
    player1Slug := nameToSlug m.player1.name
    player2Slug := nameToSlug m.player2.name
    priority := priority
    assignedAccountId := none
    reason := getPriorityReason m priority }

/-- Stable insertion step for the descending-priority sort. -/
def insertDesc (a : ViewAllocation) : List ViewAllocation → List ViewAllocation
  | [] => [a]
  | b :: rest => if a.priority < b.priority then b :: insertDesc a rest else a :: b :: rest

/-- Stable sort by descending priority, modelling the ES2019-stable
`allocations.sort(by-descending-priority)` call. -/
def sortByPriorityDesc : List ViewAllocation → List ViewAllocation
  | [] => []
  | a :: rest => insertDesc a (sortByPriorityDesc rest)

/-- `ViewAllocator.calculateViewsNeeded`: how many allocations have no
cache entry or one older than 7 days; used only for logging. -/
def calculateViewsNeeded (cache : String → Option Int) (now : Int)
    (allocations : List ViewAllocation) : Nat :=
  (allocations.filter (fun alloc =>
    match cache alloc.matchH2hPath with
    | none => true
    | some t => decide (7 < daysSince t now))).length

/-- `ViewAllocator.allocateViews`: builds one allocation per input match
(in input order) and sorts by descending priority.  `availableViews` is
only logged by the source, so it does not influence the result. -/
def allocateViews (matchList : List DailyMatch) (availableViews : Int)
    (cache : String → Option Int) (now : Int) : List ViewAllocation :=
  sortByPriorityDesc (matchList.map (mkAllocation cache now))

/-! ### SessionScraper: view-limit detection -/

/-- The eight limit-indicator phrases of `SessionScraper.detectViewLimit`. -/
def limitIndicators : List String :=
  ["upgrade to premium", "upgrade now", "daily limit", "limit reached",
   "premium members", "subscribe to", "you have reached", "free views"]

/-- The excluding phrase of `SessionScraper.detectViewLimit`. -/
def winPercentageKey : String := "win percentage"

/-- `SessionScraper.detectViewLimit`: some limit indicator occurs in the
lowercased page text and the phrase of `winPercentageKey` does not. -/
def detectViewLimit (text : String) : Bool :=
  let lower := lowerChars text
  limitIndicators.any (fun indicator => containsSub indicator.toList lower) &&
    !(containsSub winPercentageKey.toList lower)

/-! ### RotationScheduler (modelled from the spec) -/

/-- Modelled from the spec: the `DetailFetcher.fetch` outcome set
`Success | LimitReached | TransientError` (§6); the fetch itself is not
part of the scheduling code of the repository under src/. -/
inductive FetchOutcome where
  | success
  | limitReached
  | transientError
  deriving Repr, DecidableEq

/-- Modelled from the spec: `CredentialPool.forceExhaust(id)` sets
`quotaUsed = quotaMax` immediately for the credential with the given id
(§4.1); this operation has no counterpart in src/. -/
def forceExhaust : List AccountState → String → List AccountState
  | [], _ => []
  | a :: rest, accountId =>
    if a.credentials.id = accountId then
      { a with viewsUsedToday := a.maxViews } :: rest
    else
      a :: forceExhaust rest accountId

/-- Run counters of the scheduler `RunState` record (`stats: counters`, §3). -/
structure RunStats where
  served : Nat
  unserved : Nat
  errors : Nat
  deriving Repr, DecidableEq

/-- Modelled from the spec: the `RunState` of the RotationScheduler (§3) —
the remaining item queue (item keys), the active credential id, the live
session, the credential pool view, and the run counters. -/
structure SchedState where
  pool : List AccountState
  queue : List String
  currentCredId : Option String
  currentSession : Option String
  stats : RunStats
  deriving Repr, DecidableEq

/-- First account of the pool with the given credential id. -/
def findAccount (pool : List AccountState) (id : String) : Option AccountState :=
  pool.find? (fun a => a.credentials.id == id)

/-- Modelled from the spec: the `Ready`-state transition of the
RotationScheduler state machine (§4.4, transition 3) for the current
head-of-queue item, on the outcome reported by the external fetcher:
`success` consumes quota and advances the queue (dropping credential and
session when the credential is now exhausted); `limitReached` force-
exhausts the current credential, drops the session and retries the same
item on the next available credential, or counts the item unserved when
none remains; `transientError` counts an error and advances the queue,
keeping credential and session. -/
def handleFetchOutcome (st : SchedState) (credId : String) (outcome : FetchOutcome) :
    SchedState :=
  match st.queue with
  | [] => st
  | item :: rest =>
    match outcome with
    | .success =>
      let pool := consumeView st.pool credId
      let stillHas :=
        match findAccount pool credId with
        | some a => decide (a.viewsUsedToday < a.maxViews)
        | none => false
      { pool := pool
        queue := rest
        currentCredId := if stillHas then st.currentCredId else none
        currentSession := if stillHas then st.currentSession else none
        stats := { st.stats with served := st.stats.served + 1 } }
    | .limitReached =>
      let pool := forceExhaust st.pool credId
      match getNextAvailableAccount pool with
      | some c =>
        { pool := pool
          queue := item :: rest
          currentCredId := some c.credentials.id
          currentSession := none
          stats := st.stats }
      | none =>
        { pool := pool
          queue := rest
          currentCredId := none
          currentSession := none
          stats := { st.stats with unserved := st.stats.unserved + 1 } }
    | .transientError =>
      { st with
        queue := rest
        stats := { st.stats with errors := st.stats.errors + 1 } }

/-! ### More concrete example data (matches, scheduler states) -/

/-- The match copy with `player1.ranking` replaced; every other signal of
the item is held fixed. -/
def withP1Ranking (m : DailyMatch) (r : Option Int) : DailyMatch :=
  { m with player1 := { m.player1 with ranking := r } }

/-- An example player with no ranking and no odds. -/
def playerA : PlayerEntry :=
  { name := "Alice Ace", ranking := none, formScore := 0, odds := none }

/-- An example player with no ranking and no odds. -/
def playerB : PlayerEntry :=
  { name := "Bob Base", ranking := none, formScore := 0, odds := none }

/-- A concluded lower-tier match: its clamped priority score is 0. -/
def matchFinishedITF : DailyMatch :=
  { tournament := "ITF M15 Doha", tournamentTier := none, tournamentOfficialName := none,
    country := "Qatar", gender := .men, category := .singles, round := "R1",
    surface := .hard, player1 := playerA, player2 := playerB,
    scheduledTime := "10:00", status := .finished, h2hUrl := "", score := none }

/-- An upcoming main-tour match. -/
def matchUpcomingATP : DailyMatch :=
  { tournament := "ATP Masters Shanghai", tournamentTier := none,
    tournamentOfficialName := none, country := "China", gender := .men,
    category := .singles, round := "QF", surface := .hard, player1 := playerA,
    player2 := playerB, scheduledTime := "12:00", status := .upcoming,
    h2hUrl := "", score := none }

/-- 31 days in milliseconds. -/
def ms31Days : Int := 2678400000

/-- Example run counters. -/
def stats0 : RunStats := { served := 2, unserved := 0, errors := 1 }

/-- Example session token. -/
def cookieBlob : String := "cookie-blob"

/-- Example work-item key. -/
def itemKey1 : String := "alice-ace-bob-base"

/-- An example scheduler state: one credential with 1 of 3 views used,
holding a live session, one item left in the queue. -/
def sched0 : SchedState :=
  { pool := loadAccounts [rowHalf] dateToday
    queue := [itemKey1]
    currentCredId := some idA
    currentSession := some cookieBlob
    stats := stats0 }

end SharpEdge

namespace SharpEdge

/-! ### Helper lemmas about the account pool -/

theorem daysSince_eq_div (u n : Int) :
    daysSince u n = ((n - u : Int) : Rat) / (1000 * 60 * 60 * 24) := by
  rw [daysSince, Rat.divInt_eq_div]
  norm_num

theorem consumeView_preserves_quota (accounts : List AccountState) (id : String)
    (hinv : QuotaInvariant accounts)
    (hguard : ∀ a ∈ accounts, a.credentials.id = id → a.viewsUsedToday < a.maxViews) :
    QuotaInvariant (consumeView accounts id) := by
  induction accounts with
  | nil => intro a ha; simp [consumeView] at ha
  | cons b rest ih =>
    by_cases hb : b.credentials.id = id
    · intro a ha
      simp only [consumeView, if_pos hb, List.mem_cons] at ha
      rcases ha with rfl | ha
      · have h1 := hinv b (by simp)
        have h2 := hguard b (by simp) hb
        refine ⟨?_, ?_⟩ <;> simp <;> omega
      · exact hinv a (by simp [ha])
    · intro a ha
      simp only [consumeView, if_neg hb, List.mem_cons] at ha
      rcases ha with rfl | ha
      · exact hinv a (by simp)
      · exact ih (fun x hx => hinv x (by simp [hx]))
          (fun x hx hxid => hguard x (by simp [hx]) hxid) a ha

theorem guardedSeq_append_left (accounts : List AccountState) (p q : List String)
    (h : guardedSeq accounts (p ++ q) = true) : guardedSeq accounts p = true := by
  induction p generalizing accounts with
  | nil => simp [guardedSeq]
  | cons x p ih =>
    simp only [List.cons_append, guardedSeq, Bool.and_eq_true] at h ⊢
    exact ⟨h.1, ih _ h.2⟩

theorem consumeSeq_guarded_inv (accounts : List AccountState) (ids : List String)
    (hinv : QuotaInvariant accounts) (hg : guardedSeq accounts ids = true) :
    QuotaInvariant (consumeSeq accounts ids) := by
  induction ids generalizing accounts with
  | nil => simpa [consumeSeq] using hinv
  | cons x ids ih =>
    simp only [guardedSeq, Bool.and_eq_true] at hg
    have hstep : QuotaInvariant (consumeView accounts x) := by
      apply consumeView_preserves_quota _ _ hinv
      intro a ha haid
      have hall := hg.1
      rw [List.all_eq_true] at hall
      have h2 := hall a ha
      simp [haid] at h2
      exact h2
    have hrw : consumeSeq accounts (x :: ids) = consumeSeq (consumeView accounts x) ids := rfl
    rw [hrw]
    exact ih _ hstep hg.2

theorem foldl_add_sub (l : List AccountState) (s : Int) :
    l.foldl (fun sum acc => sum + (acc.maxViews - acc.viewsUsedToday)) s
      = s + (l.map (fun a => a.maxViews - a.viewsUsedToday)).sum := by
  induction l generalizing s with
  | nil => simp
  | cons a l ih =>
    simp only [List.foldl_cons, List.map_cons, List.sum_cons, ih]
    ring

/-! ### C1 — quota invariant under consumeView sequences -/

/-- C1 counterexample: a pool loaded with `0 ≤ viewsUsedToday ≤ maxViews`
for every account on which a single `consumeView` call breaks
`viewsUsedToday ≤ maxViews`: the code increments unconditionally, so the
claimed invariant does not hold for every sequence of calls. -/
theorem consumeView_can_exceed_quota :
    QuotaInvariant (loadAccounts [rowFull] dateToday) ∧
      ¬ QuotaInvariant (consumeView (loadAccounts [rowFull] dateToday) idA) := by
  decide

/-- C1 (amended): for every pool state satisfying the quota invariant and
every guarded sequence of `consumeView` calls (each call targets an
account that still has a view remaining at the moment of the call, as the
scheduler does by consuming only accounts returned by
`getNextAvailableAccount`), the invariant `0 ≤ viewsUsedToday ≤ maxViews`
holds for every account at every point of the sequence (i.e. after every
prefix). -/
theorem consumeSeq_guarded_quota_invariant (accounts : List AccountState)
    (ids p q : List String) (hinv : QuotaInvariant accounts)
    (hg : guardedSeq accounts ids = true) (hpq : ids = p ++ q) :
    QuotaInvariant (consumeSeq accounts p) := by
  subst hpq
  exact consumeSeq_guarded_inv _ _ hinv (guardedSeq_append_left _ _ _ hg)

/-- Witness for C1 (amended) at a concrete pool and sequence. -/
theorem consumeSeq_guarded_quota_invariant_witness :
    QuotaInvariant (consumeSeq (loadAccounts [rowHalf] dateToday) [idA]) :=
  consumeSeq_guarded_quota_invariant (loadAccounts [rowHalf] dateToday)
    [idA, idA] [idA] [idA] (by decide) (by decide) rfl

/-! ### C4 — totalAvailable equals the sum of remaining quota -/

/-- C4: after any sequence of `consumeView` calls,
`getTotalAvailableViews` equals the sum over all loaded accounts of
`maxViews - viewsUsedToday`, computed from the in-memory state alone. -/
theorem getTotalAvailableViews_eq_sum (accounts : List AccountState) (ids : List String) :
    getTotalAvailableViews (consumeSeq accounts ids)
      = ((consumeSeq accounts ids).map (fun a => a.maxViews - a.viewsUsedToday)).sum := by
  simpa [getTotalAvailableViews] using foldl_add_sub (consumeSeq accounts ids) 0

/-! ### C6 — stale used-counts are reset on load -/

/-- C6: on load, each per-account in-memory `viewsUsedToday` is the stored
`views_used_today` when the stored `last_reset_date` equals today, and 0
otherwise. -/
theorem loadAccounts_resets_stale (rows : List AccountRow) (today : String) :
    (loadAccounts rows today).map AccountState.viewsUsedToday
      = rows.map (fun row =>
          if row.last_reset_date = today then row.views_used_today else 0) := by
  simp only [loadAccounts, List.map_map]
  rfl

/-! ### C8 — first-fit account selection -/

/-- C8: `getNextAvailableAccount` returns the first account, in load
order, with `viewsUsedToday < maxViews`, and returns `none` exactly when
no account has a view remaining. -/
theorem getNextAvailableAccount_first_fit (accounts : List AccountState) :
    (∀ a, getNextAvailableAccount accounts = some a →
        a.viewsUsedToday < a.maxViews ∧
          ∃ l₁ l₂, accounts = l₁ ++ a :: l₂ ∧
            ∀ b ∈ l₁, ¬ b.viewsUsedToday < b.maxViews) ∧
      (getNextAvailableAccount accounts = none ↔
        ∀ a ∈ accounts, ¬ a.viewsUsedToday < a.maxViews) := by
  induction accounts with
  | nil =>
    refine ⟨fun a h => by simp [getNextAvailableAccount] at h, ?_⟩
    simp [getNextAvailableAccount]
  | cons b rest ih =>
    by_cases hb : b.viewsUsedToday < b.maxViews
    · refine ⟨fun a h => ?_, ?_⟩
      · have hba : b = a := by
          simpa [getNextAvailableAccount, List.find?_cons_of_pos, hb] using h
        subst hba
        exact ⟨hb, [], rest, rfl, by simp⟩
      · constructor
        · intro h
          simp [getNextAvailableAccount, List.find?_cons_of_pos, hb] at h
        · intro h
          exact absurd hb (h b (by simp))
    · have hstep : getNextAvailableAccount (b :: rest) = getNextAvailableAccount rest := by
        simp [getNextAvailableAccount, List.find?_cons_of_neg, hb]
      refine ⟨fun a h => ?_, ?_⟩
      · rw [hstep] at h
        obtain ⟨hav, l₁, l₂, heq, hall⟩ := ih.1 a h
        refine ⟨hav, b :: l₁, l₂, by simp [heq], ?_⟩
        intro x hx
        rcases List.mem_cons.mp hx with rfl | hx
        · exact hb
        · exact hall x hx
      · rw [hstep, ih.2]
        constructor
        · intro h a ha
          rcases List.mem_cons.mp ha with rfl | ha
          · exact hb
          · exact h a ha
        · intro h a ha
          exact h a (by simp [ha])

/-! ### Helper lemmas about the allocator sort -/

theorem insertDesc_perm (a : ViewAllocation) (l : List ViewAllocation) :
    List.Perm (insertDesc a l) (a :: l) := by
  induction l with
  | nil => simp [insertDesc]
  | cons b rest ih =>
    by_cases h : a.priority < b.priority
    · simp only [insertDesc, if_pos h]
      exact (ih.cons b).trans (List.Perm.swap a b rest)
    · simp [insertDesc, if_neg h]

theorem sortByPriorityDesc_perm (l : List ViewAllocation) :
    List.Perm (sortByPriorityDesc l) l := by
  induction l with
  | nil => simp [sortByPriorityDesc]
  | cons a rest ih =>
    exact (insertDesc_perm a (sortByPriorityDesc rest)).trans (ih.cons a)

theorem insertDesc_sorted (a : ViewAllocation) (l : List ViewAllocation)
    (h : List.Pairwise (fun x y => y.priority ≤ x.priority) l) :
    List.Pairwise (fun x y => y.priority ≤ x.priority) (insertDesc a l) := by
  induction l with
  | nil => simp [insertDesc]
  | cons b rest ih =>
    rcases List.pairwise_cons.mp h with ⟨hb, hrest⟩
    by_cases hab : a.priority < b.priority
    · simp only [insertDesc, if_pos hab]
      refine List.pairwise_cons.mpr ⟨?_, ih hrest⟩
      intro x hx
      rcases List.mem_cons.mp ((insertDesc_perm a rest).mem_iff.mp hx) with rfl | hx2
      · exact le_of_lt hab
      · exact hb x hx2
    · simp only [insertDesc, if_neg hab]
      refine List.pairwise_cons.mpr ⟨?_, h⟩
      intro x hx
      rcases List.mem_cons.mp hx with rfl | hx2
      · exact le_of_not_lt hab
      · exact le_trans (hb x hx2) (le_of_not_lt hab)

theorem sortByPriorityDesc_sorted (l : List ViewAllocation) :
    List.Pairwise (fun x y => y.priority ≤ x.priority) (sortByPriorityDesc l) := by
  induction l with
  | nil => simp [sortByPriorityDesc]
  | cons a rest ih => exact insertDesc_sorted a _ ih

theorem filter_insertDesc (a : ViewAllocation) (l : List ViewAllocation) (p : Int) :
    (insertDesc a l).filter (fun x => x.priority == p)
      = if a.priority == p then
          a :: l.filter (fun x => x.priority == p)
        else
          l.filter (fun x => x.priority == p) := by
  induction l with
  | nil => simp [insertDesc, List.filter_cons]
  | cons b rest ih =>
    by_cases hab : a.priority < b.priority
    · by_cases hb : (b.priority == p) = true
      · have ha : (a.priority == p) = false := by
          rw [beq_iff_eq] at hb
          rw [beq_eq_false_iff_ne]
          omega
        simp [insertDesc, if_pos hab, List.filter_cons, ih, hb, ha]
      · simp [insertDesc, if_pos hab, List.filter_cons, ih, hb]
    · simp only [insertDesc, if_neg hab, List.filter_cons]

theorem sortByPriorityDesc_stable (l : List ViewAllocation) (p : Int) :
    (sortByPriorityDesc l).filter (fun x => x.priority == p)
      = l.filter (fun x => x.priority == p) := by
  induction l with
  | nil => rfl
  | cons a rest ih =>
    simp only [sortByPriorityDesc, filter_insertDesc, ih, List.filter_cons]

/-! ### C2 — the allocator applies no minimum-score cutoff -/

/-- C2 counterexample: a single-item input whose clamped priority score is
0 (a concluded lower-tier match) for which `allocateViews` still returns a
(nonempty) allocation sequence: the source sorts but never filters by a
minimum-value cutoff, contradicting the claimed empty result. -/
theorem allocateViews_keeps_zero_score_items :
    calculatePriority matchFinishedITF none 0 = 0 ∧
      allocateViews [matchFinishedITF] 30 (fun _ => none) 0 ≠ [] := by
  decide

/-- C2 (amended): `allocateViews` ranks but does not filter: the result is
a permutation of the per-match allocation records (one per input match,
regardless of score), sorted by descending priority with ties in input
order — for every priority value, the allocations of that priority appear
in exactly the input order (stable sort) — and items with clamped score
≤ 0 are returned rather than excluded. -/
theorem allocateViews_returns_all_sorted (matchList : List DailyMatch)
    (availableViews : Int) (cache : String → Option Int) (now : Int) :
    List.Perm (allocateViews matchList availableViews cache now)
        (matchList.map (mkAllocation cache now)) ∧
      List.Pairwise (fun x y => y.priority ≤ x.priority)
        (allocateViews matchList availableViews cache now) ∧
      ∀ p : Int,
        (allocateViews matchList availableViews cache now).filter
            (fun x => x.priority == p)
          = (matchList.map (mkAllocation cache now)).filter
              (fun x => x.priority == p) :=
  ⟨sortByPriorityDesc_perm _, sortByPriorityDesc_sorted _,
    fun p => sortByPriorityDesc_stable (matchList.map (mkAllocation cache now)) p⟩

/-! ### C7 — the allocator result is independent of available quota -/

/-- C7: `allocateViews` never truncates to the available quota: the
returned sequence has one allocation per input match, and the result is
literally independent of the `availableViews` argument (which the source
only logs). -/
theorem allocateViews_independent_of_quota (matchList : List DailyMatch)
    (v₁ v₂ : Int) (cache : String → Option Int) (now : Int) :
    (allocateViews matchList v₁ cache now).length = matchList.length ∧
      allocateViews matchList v₁ cache now = allocateViews matchList v₂ cache now := by
  refine ⟨?_, rfl⟩
  have h := (sortByPriorityDesc_perm (matchList.map (mkAllocation cache now))).length_eq
  simpa [allocateViews] using h

/-! ### C3 — the score is not a pure function of (item, cache result) -/

/-- C3 counterexample: the same match and the same cached `updated_at`
evaluated at two different clock instants yield different scores (31 days
later the cache entry counts as stale, +10 instead of -20): the score
hiddenly depends on `Date.now()` through `daysSince`, so it is not a pure
function of `(item, freshness-lookup-result)` alone. -/
theorem calculatePriority_depends_on_clock :
    calculatePriority matchUpcomingATP (some 0) ms31Days ≠
      calculatePriority matchUpcomingATP (some 0) 0 := by
  decide

/-- C3 (amended): the score is a pure function of the item, the
freshness-lookup result and the current clock: evaluations agree whenever
all three agree, and when the item has no cache entry the score is
independent of the clock as well. -/
theorem calculatePriority_pure (m : DailyMatch) (c₁ c₂ : Option Int) (n₁ n₂ : Int)
    (hc : c₁ = c₂) (h : n₁ = n₂ ∨ c₁ = none) :
    calculatePriority m c₁ n₁ = calculatePriority m c₂ n₂ := by
  subst hc
  rcases h with rfl | rfl
  · rfl
  · rfl

/-- Witness for C3 (amended): with no cache entry the two clock values 5
and 77 give the same score. -/
theorem calculatePriority_pure_witness :
    calculatePriority matchUpcomingATP none 5 = calculatePriority matchUpcomingATP none 77 :=
  calculatePriority_pure matchUpcomingATP none none 5 77 rfl (Or.inr rfl)

/-! ### C9 — the score is monotone in the rank of the best participant -/

theorem rankingBonus_antitone (r₁ r₂ : Int) (h : r₁ ≤ r₂) :
    rankingBonus r₂ ≤ rankingBonus r₁ := by
  simp only [rankingBonus]
  split_ifs <;> omega

theorem formDivergence_ranking_irrel (p1 p2 : PlayerEntry) (r : Option Int) :
    formDivergence { p1 with ranking := r } p2 = formDivergence p1 p2 := rfl

/-- C9: holding every other signal fixed, a better (numerically smaller,
positive) rank for player 1 never yields a lower priority score: for rank
values `1 ≤ r₁ ≤ r₂`, the score with rank `r₁` is at least the score with
rank `r₂`.  (Rank values are positive; the JS fallback `ranking || 999`
treats the number 0, like `null`, as a missing ranking.) -/
theorem calculatePriority_rank_monotone (m : DailyMatch) (cached : Option Int)
    (now : Int) (r₁ r₂ : Int) (h0 : 0 < r₁) (h12 : r₁ ≤ r₂) :
    calculatePriority (withP1Ranking m (some r₂)) cached now ≤
      calculatePriority (withP1Ranking m (some r₁)) cached now := by
  have hne1 : ¬ r₁ = 0 := by omega
  have hne2 : ¬ r₂ = 0 := by omega
  have key : rankingBonus (min (rankOr999 (some r₂)) (rankOr999 m.player2.ranking))
      ≤ rankingBonus (min (rankOr999 (some r₁)) (rankOr999 m.player2.ranking)) := by
    apply rankingBonus_antitone
    apply min_le_min _ (le_refl _)
    simpa [rankOr999, hne1, hne2] using h12
  simp only [calculatePriority, withP1Ranking]
  apply max_le_max (le_refl 0)
  simp only [formDivergence_ranking_irrel]
  omega

/-- Witness for C9 at ranks 5 ≤ 40 on a concrete upcoming match. -/
theorem calculatePriority_rank_monotone_witness :
    calculatePriority (withP1Ranking matchUpcomingATP (some 40)) none 0 ≤
      calculatePriority (withP1Ranking matchUpcomingATP (some 5)) none 0 :=
  calculatePriority_rank_monotone matchUpcomingATP none 0 5 40 (by decide) (by decide)

/-! ### Helper lemmas about substring containment -/

theorem startsWith_iff (pat s : List Char) :
    startsWith pat s = true ↔ ∃ t, s = pat ++ t := by
  induction pat generalizing s with
  | nil => simp [startsWith]
  | cons p ps ih =>
    cases s with
    | nil => simp [startsWith]
    | cons c cs =>
      simp only [startsWith, Bool.and_eq_true, beq_iff_eq, ih, List.cons_append]
      constructor
      · rintro ⟨rfl, t, rfl⟩
        exact ⟨t, rfl⟩
      · rintro ⟨t, ht⟩
        injection ht with h1 h2
        exact ⟨h1.symm, t, h2⟩

theorem containsSub_iff (pat s : List Char) :
    containsSub pat s = true ↔ ∃ pre post, s = pre ++ (pat ++ post) := by
  induction s with
  | nil =>
    simp only [containsSub, startsWith_iff]
    constructor
    · rintro ⟨t, ht⟩
      exact ⟨[], t, ht⟩
    · rintro ⟨pre, post, h⟩
      rcases List.append_eq_nil.mp h.symm with ⟨rfl, h2⟩
      exact ⟨post, h2.symm⟩
  | cons c cs ih =>
    simp only [containsSub, Bool.or_eq_true, startsWith_iff, ih]
    constructor
    · rintro (⟨t, ht⟩ | ⟨pre, post, hp⟩)
      · exact ⟨[], t, by simpa using ht⟩
      · exact ⟨c :: pre, post, by simp [hp]⟩
    · rintro ⟨pre, post, hp⟩
      cases pre with
      | nil =>
        left
        exact ⟨post, by simpa using hp⟩
      | cons x xs =>
        right
        rw [List.cons_append] at hp
        injection hp with h1 h2
        exact ⟨xs, post, h2⟩

/-! ### C10 — the view-limit detector -/

/-- C10: `detectViewLimit` returns `true` exactly when the lowercased
page text contains at least one of the eight limit-indicator phrases and
does not contain the win-percentage phrase; in particular a page whose
lowercased text contains the latter is never classified as a view limit. -/
theorem detectViewLimit_iff (text : String) :
    detectViewLimit text = true ↔
      ((∃ indicator ∈ limitIndicators, ∃ pre post,
          lowerChars text = pre ++ (indicator.toList ++ post)) ∧
        ¬ ∃ pre post, lowerChars text = pre ++ (winPercentageKey.toList ++ post)) := by
  simp only [detectViewLimit, Bool.and_eq_true, List.any_eq_true, containsSub_iff,
    Bool.not_eq_true']
  rw [← Bool.not_eq_true]
  rw [containsSub_iff]

/-! ### C5 — rotation on LimitReached (modelled from the spec) -/

theorem forceExhaust_exhausts (pool : List AccountState) (id : String)
    (hids : (pool.map (fun a => a.credentials.id)).Nodup) :
    ∀ a ∈ forceExhaust pool id, a.credentials.id = id → a.viewsUsedToday = a.maxViews := by
  induction pool with
  | nil => intro a ha; simp [forceExhaust] at ha
  | cons b rest ih =>
    simp only [List.map_cons, List.nodup_cons] at hids
    intro a ha haid
    by_cases hb : b.credentials.id = id
    · simp only [forceExhaust, if_pos hb, List.mem_cons] at ha
      rcases ha with rfl | ha
      · rfl
      · exfalso
        apply hids.1
        rw [hb, ← haid]
        exact List.mem_map_of_mem _ ha
    · simp only [forceExhaust, if_neg hb, List.mem_cons] at ha
      rcases ha with rfl | ha
      · exact absurd haid hb
      · exact ih hids.2 a ha haid

/-- C5: on a `limitReached` fetch outcome for the head-of-queue item, the
scheduler force-exhausts the current credential (its `quotaUsed` becomes
`quotaMax`), drops the session, and picks the next available credential —
never the force-exhausted one again, so the retry happens at most once
per rotation event — keeping the queue unadvanced so the same item is
retried; when no credential remains the item is counted as unserved, not
as an error. -/
theorem handleLimitReached_rotates (st : SchedState) (credId item : String)
    (rest : List String) (hq : st.queue = item :: rest)
    (hids : (st.pool.map (fun a => a.credentials.id)).Nodup) :
    (handleFetchOutcome st credId .limitReached).pool = forceExhaust st.pool credId ∧
      (∀ a ∈ (handleFetchOutcome st credId .limitReached).pool,
          a.credentials.id = credId → a.viewsUsedToday = a.maxViews) ∧
      (handleFetchOutcome st credId .limitReached).currentSession = none ∧
      (∀ c, getNextAvailableAccount (forceExhaust st.pool credId) = some c →
          c.credentials.id ≠ credId ∧
            (handleFetchOutcome st credId .limitReached).queue = item :: rest ∧
            (handleFetchOutcome st credId .limitReached).currentCredId =
              some c.credentials.id ∧
            (handleFetchOutcome st credId .limitReached).stats = st.stats) ∧
      (getNextAvailableAccount (forceExhaust st.pool credId) = none →
          (handleFetchOutcome st credId .limitReached).queue = rest ∧
            (handleFetchOutcome st credId .limitReached).currentCredId = none ∧
            (handleFetchOutcome st credId .limitReached).stats.unserved
              = st.stats.unserved + 1 ∧
            (handleFetchOutcome st credId .limitReached).stats.errors = st.stats.errors ∧
            (handleFetchOutcome st credId .limitReached).stats.served
              = st.stats.served) := by
  obtain ⟨pool, queue, cc, cs, stats⟩ := st
  simp only at hq
  subst hq
  have hnotAgain : ∀ c, getNextAvailableAccount (forceExhaust pool credId) = some c →
      c.credentials.id ≠ credId := by
    intro c hfind heq
    have hc1 : c ∈ forceExhaust pool credId := List.mem_of_find?_eq_some hfind
    have hc2 : c.viewsUsedToday < c.maxViews := by
      simpa using List.find?_some hfind
    have := forceExhaust_exhausts pool credId hids c hc1 heq
    omega
  cases hfind : getNextAvailableAccount (forceExhaust pool credId) with
  | some c =>
    refine ⟨?_, ?_, ?_, ?_, ?_⟩
    · simp [handleFetchOutcome, hfind]
    · intro a ha haid
      apply forceExhaust_exhausts pool credId hids a _ haid
      simpa [handleFetchOutcome, hfind] using ha
    · simp [handleFetchOutcome, hfind]
    · intro d hd
      injection hd with hd
      subst hd
      exact ⟨hnotAgain c hfind, by simp [handleFetchOutcome, hfind],
        by simp [handleFetchOutcome, hfind], by simp [handleFetchOutcome, hfind]⟩
    · intro hnone
      exact absurd hnone (by simp)
  | none =>
    refine ⟨?_, ?_, ?_, ?_, ?_⟩
    · simp [handleFetchOutcome, hfind]
    · intro a ha haid
      apply forceExhaust_exhausts pool credId hids a _ haid
      simpa [handleFetchOutcome, hfind] using ha
    · simp [handleFetchOutcome, hfind]
    · intro d hd
      exact absurd hd (by simp)
    · intro _
      refine ⟨?_, ?_, ?_, ?_, ?_⟩ <;> simp [handleFetchOutcome, hfind]

/-- Witness for C5: a concrete state with a single half-used credential;
`limitReached` exhausts it, no credential remains, and the item is
counted unserved while the error counter is unchanged. -/
theorem handleLimitReached_rotates_witness :
    (handleFetchOutcome sched0 idA .limitReached).currentSession = none ∧
      (handleFetchOutcome sched0 idA .limitReached).queue = [] ∧
      (handleFetchOutcome sched0 idA .limitReached).stats.unserved
        = sched0.stats.unserved + 1 ∧
      (handleFetchOutcome sched0 idA .limitReached).stats.errors
        = sched0.stats.errors := by
  have h := handleLimitReached_rotates sched0 idA itemKey1 [] (by decide) (by decide)
  have h5 := h.2.2.2.2 (by decide)
  exact ⟨h.2.2.1, h5.1, h5.2.2.1, h5.2.2.2.1⟩

end SharpEdge
